import Mathlib

/-!
Verification of the module-coordinate algebra and version-resolution logic of
the gomajor tool.  Go strings are modelled as lists of characters (all the
paths and versions involved are ASCII, so a character stands for a byte).
Functions from the repository's own packages are translated directly from the
Go source; the helpers from the golang.org/x/mod dependency (semver parsing,
module.SplitPathVersion) are translated from that library's source, since the
repository calls them.  The module proxy client is an external collaborator
and is passed in as function-valued oracles.
-/

/-- Go strings, modelled as lists of characters. -/
abbrev GoStr := List Char

/-- Embeds strings.HasPrefix(s, pre). -/
def strHasPre (s pre : GoStr) : Bool := pre.isPrefixOf s

/-- Embeds strings.HasSuffix(s, suf). -/
def strHasSuf (s suf : GoStr) : Bool := suf.isSuffixOf s

/-- Embeds strings.TrimPrefix(s, pre): drops pre when it is a prefix of s. -/
def strTrimPre (s pre : GoStr) : GoStr :=
  if pre.isPrefixOf s then s.drop pre.length else s

/-- Index of the first occurrence of sub in s (strings.Index, with -1 as none). -/
def strIndexOpt (sub : GoStr) : GoStr → Option Nat
  | [] => if sub.isPrefixOf ([] : GoStr) then some 0 else none
  | c :: t =>
    if sub.isPrefixOf (c :: t) then some 0 else (strIndexOpt sub t).map (· + 1)

/-- Embeds strings.Contains(s, sub). -/
def strContains (s sub : GoStr) : Bool := (strIndexOpt sub s).isSome

/-- Embeds packages.JoinPathMajor (src/unnamed/part_000 lines 91-104): appends
the major-version token to a module prefix under the gopkg.in dot convention
or the standard slash convention. -/
def JoinPathMajor (path major : GoStr) : GoStr :=
  if strHasPre path "gopkg.in".toList then
    let major := strTrimPre major ".".toList
    path ++ ".".toList ++ major
  else
    let major := strTrimPre major "/".toList
    if major = "v0".toList ∨ major = "v1".toList ∨ major = [] then path
    else
      let path := if !strHasSuf path "/".toList then path ++ "/".toList else path
      path ++ major

/-- Decimal digit test on a character (a Go byte in the ASCII range). -/
def isDigitC (c : Char) : Bool := '0' ≤ c && c ≤ '9'

/-- Embeds semver.parseInt from golang.org/x/mod: a non-empty decimal run
with no leading zero, returning the run and the rest. -/
def parseIntSem (v : GoStr) : Option (GoStr × GoStr) :=
  match v with
  | [] => none
  | c :: _ =>
    if !isDigitC c then none
    else
      let t := v.takeWhile isDigitC
      if c = '0' && t.length ≠ 1 then none
      else some (t, v.dropWhile isDigitC)

/-- Embeds semver.isIdentChar from golang.org/x/mod. -/
def isIdentChar (c : Char) : Bool :=
  ('A' ≤ c && c ≤ 'Z') || ('a' ≤ c && c ≤ 'z') || ('0' ≤ c && c ≤ '9') || c = '-'

/-- Embeds semver.isBadNum from golang.org/x/mod: all digits, longer than
one character, with a leading zero. -/
def isBadNum (v : GoStr) : Bool :=
  v.all isDigitC && decide (v.length > 1) && v.headD ' ' = '0'

/-- Embeds semver.parsePrerelease from golang.org/x/mod: a hyphen followed by
dot-separated identifiers (stopping at a plus), none empty, numeric ones
without leading zeros. -/
def parsePrerelease (v : GoStr) : Option (GoStr × GoStr) :=
  match v with
  | '-' :: tail =>
    let body := tail.takeWhile (· ≠ '+')
    if body.all (fun c => isIdentChar c || c = '.') &&
        (body.splitOn '.').all (fun seg => !seg.isEmpty && !isBadNum seg) then
      some ('-' :: body, tail.dropWhile (· ≠ '+'))
    else none
  | _ => none

/-- Embeds semver.parseBuild from golang.org/x/mod: a plus followed by
dot-separated non-empty identifier segments, running to the end. -/
def parseBuild (v : GoStr) : Option (GoStr × GoStr) :=
  match v with
  | '+' :: body =>
    if body.all (fun c => isIdentChar c || c = '.') &&
        (body.splitOn '.').all (fun seg => !seg.isEmpty) then
      some ('+' :: body, [])
    else none
  | _ => none

/-- The parsed fields of a semantic version (semver.parsed in x/mod). -/
structure SemParsed where
  major : GoStr
  minor : GoStr
  patch : GoStr
  short : GoStr
  prerelease : GoStr
  build : GoStr
deriving DecidableEq

/-- Embeds semver.parse from golang.org/x/mod: a leading v, then
major[.minor[.patch[-prerelease][+build]]]. -/
def semverParse (v : GoStr) : Option SemParsed :=
  match v with
  | 'v' :: v0 =>
    match parseIntSem v0 with
    | none => none
    | some (maj, v1) =>
      if v1 = [] then some ⟨maj, "0".toList, "0".toList, ".0.0".toList, [], []⟩
      else
        match v1 with
        | '.' :: v2 =>
          match parseIntSem v2 with
          | none => none
          | some (minr, v3) =>
            if v3 = [] then some ⟨maj, minr, "0".toList, ".0".toList, [], []⟩
            else
              match v3 with
              | '.' :: v4 =>
                match parseIntSem v4 with
                | none => none
                | some (pat, v5) =>
                  match (if v5.headD ' ' = '-' then parsePrerelease v5
                         else some ([], v5)) with
                  | none => none
                  | some (pre, v6) =>
                    match (if v6.headD ' ' = '+' then parseBuild v6
                           else some ([], v6)) with
                    | none => none
                    | some (bld, v7) =>
                      if v7 = [] then some ⟨maj, minr, pat, [], pre, bld⟩
                      else none
              | _ => none
        | _ => none
  | _ => none

/-- Embeds semver.IsValid from golang.org/x/mod. -/
def semverIsValid (v : GoStr) : Bool := (semverParse v).isSome

/-- Embeds semver.Major from golang.org/x/mod: the leading v plus the major
digits of a valid version, empty for an invalid one. -/
def semverMajor (v : GoStr) : GoStr :=
  match semverParse v with
  | none => []
  | some p => v.take (1 + p.major.length)

/-- Embeds splitGopkgIn from golang.org/x/mod module.SplitPathVersion:
gopkg.in paths must end in a dot-v-number suffix (optionally -unstable). -/
def splitGopkgIn (path : GoStr) : GoStr × GoStr × Bool :=
  if !strHasPre path "gopkg.in/".toList then (path, [], false)
  else
    let scanLen :=
      if strHasSuf path "-unstable".toList then path.length - "-unstable".toList.length
      else path.length
    let k := ((path.take scanLen).reverse.takeWhile isDigitC).length
    let i := scanLen - k
    if i ≤ 1 || path.getD (i - 1) ' ' ≠ 'v' || path.getD (i - 2) ' ' ≠ '.' then
      (path, [], false)
    else
      let pathMajor := path.drop (i - 2)
      if pathMajor.length ≤ 2 ||
          (pathMajor.getD 2 ' ' = '0' && pathMajor ≠ ".v0".toList) then
        (path, [], false)
      else (path.take (i - 2), pathMajor, true)

/-- Embeds module.SplitPathVersion from golang.org/x/mod: splits a module
path into its version-independent part and a trailing /vN major segment. -/
def splitPathVersion (path : GoStr) : GoStr × GoStr × Bool :=
  if strHasPre path "gopkg.in/".toList then splitGopkgIn path
  else
    let run := path.reverse.takeWhile (fun c => isDigitC c || c = '.')
    let k := run.length
    let i := path.length - k
    let dot := run.contains '.'
    if i ≤ 1 || i = path.length || path.getD (i - 1) ' ' ≠ 'v' ||
        path.getD (i - 2) ' ' ≠ '/' then
      (path, [], true)
    else
      let pathMajor := path.drop (i - 2)
      if dot || pathMajor.length ≤ 2 || pathMajor.getD 2 ' ' = '0' ||
          pathMajor = "/v1".toList then
        (path, [], false)
      else (path.take (i - 2), pathMajor, true)

/-- Embeds the packages.Package struct (src/unnamed/part_000 lines 12-16). -/
structure Package where
  Version : GoStr
  PkgDir : GoStr
  ModPrefix : GoStr
deriving DecidableEq

/-- Embeds Package.Incompatible (src/unnamed/part_000 lines 46-48). -/
def Package.Incompatible (pkg : Package) : Bool :=
  strContains pkg.Version "+incompatible".toList

/-- Embeds Package.ModPath (src/unnamed/part_000 lines 50-55). -/
def Package.ModPath (pkg : Package) : GoStr :=
  if pkg.Incompatible && !strHasPre pkg.ModPrefix "gopkg.in".toList then pkg.ModPrefix
  else JoinPathMajor pkg.ModPrefix (semverMajor pkg.Version)

/-- Embeds Package.FindModPath (src/unnamed/part_000 lines 61-78): locates
the module path inside a full package path that starts with ModPrefix. -/
def Package.FindModPath (pkg : Package) (pkgpath : GoStr) : GoStr × Bool :=
  if !strHasPre pkgpath pkg.ModPrefix then ([], false)
  else
    let n0 := pkg.ModPrefix.length
    let n1 := if strHasPre (pkgpath.drop n0) "/".toList then n0 + 1 else n0
    let n2 :=
      match strIndexOpt "/".toList (pkgpath.drop n1) with
      | some idx => n1 + idx
      | none => pkgpath.length
    match splitPathVersion (pkgpath.take n2) with
    | (_, major, true) => (JoinPathMajor pkg.ModPrefix major, true)
    | (_, _, false) => (pkg.ModPrefix, true)

/-- Lexicographic byte-order comparison of Go strings (the < operator on
strings, over the ASCII fragment). -/
def goStrLt : GoStr → GoStr → Bool
  | [], [] => false
  | [], _ :: _ => true
  | _ :: _, [] => false
  | a :: x, b :: y => if a < b then true else if b < a then false else goStrLt x y

/-- Embeds semver.compareInt from golang.org/x/mod. -/
def compareIntSem (x y : GoStr) : Int :=
  if x = y then 0
  else if x.length < y.length then -1
  else if x.length > y.length then 1
  else if goStrLt x y then -1 else 1

/-- Embeds semver.isNum from golang.org/x/mod. -/
def isNum (v : GoStr) : Bool := v.all isDigitC

/-- Embeds the loop of semver.comparePrerelease from golang.org/x/mod:
walks dot-separated identifiers after skipping the leading delimiter. -/
def comparePreLoop (x y : GoStr) : Int :=
  match x, y with
  | _ :: xt, _ :: yt =>
    let dx := xt.takeWhile (· ≠ '.')
    let dy := yt.takeWhile (· ≠ '.')
    if dx ≠ dy then
      if isNum dx ≠ isNum dy then (if isNum dx then -1 else 1)
      else if isNum dx && decide (dx.length < dy.length) then -1
      else if isNum dx && decide (dx.length > dy.length) then 1
      else if goStrLt dx dy then -1 else 1
    else comparePreLoop (xt.dropWhile (· ≠ '.')) (yt.dropWhile (· ≠ '.'))
  | [], _ => -1
  | _, [] => 1
termination_by x.length
decreasing_by
  simp only [List.length_cons]
  exact Nat.lt_succ_of_le (List.dropWhile_sublist _).length_le

/-- Embeds semver.comparePrerelease from golang.org/x/mod: a non-empty
prerelease sorts below the empty one. -/
def comparePrerelease (x y : GoStr) : Int :=
  if x = y then 0
  else if x = [] then 1
  else if y = [] then -1
  else comparePreLoop x y

/-- Embeds semver.Compare from golang.org/x/mod. -/
def semverCompare (v w : GoStr) : Int :=
  match semverParse v, semverParse w with
  | none, none => 0
  | none, some _ => -1
  | some _, none => 1
  | some pv, some pw =>
    if compareIntSem pv.major pw.major ≠ 0 then compareIntSem pv.major pw.major
    else if compareIntSem pv.minor pw.minor ≠ 0 then compareIntSem pv.minor pw.minor
    else if compareIntSem pv.patch pw.patch ≠ 0 then compareIntSem pv.patch pw.patch
    else comparePrerelease pv.prerelease pw.prerelease

/-- The module metadata of a loaded package: the fields of the build-tool
module record that packages.Direct inspects (Replace is collapsed to the
Boolean HasReplace, the only thing Direct asks of it). -/
structure GoModule where
  Path : GoStr
  Version : GoStr
  Indirect : Bool
  HasReplace : Bool
  Main : Bool
deriving DecidableEq

/-- A loaded package as packages.Load returns it: Direct only reads the
optional module record. -/
structure LoadedPackage where
  Module : Option GoModule
deriving DecidableEq

/-- The prefix-canonicalisation step of Direct: strip a trailing encoded
major-version suffix when module.SplitPathVersion finds one. -/
def stripModSuffix (modpath : GoStr) : GoStr :=
  match splitPathVersion modpath with
  | (pre, _, true) => pre
  | (_, _, false) => modpath

/-- The selection test of the Direct loop (src/unnamed/part_000 line 31):
direct, unreplaced, non-main modules not seen before. -/
def directKeeps (seen : List GoStr) (m : GoModule) : Bool :=
  !m.Indirect && !m.HasReplace && !m.Main && !seen.contains m.Path

/-- Embeds the loop of packages.Direct (src/unnamed/part_000 lines 29-42):
the seen set keyed by module path admits each module once. -/
def directLoop : List LoadedPackage → List GoStr → List Package
  | [], _ => []
  | p :: rest, seen =>
    match p.Module with
    | some m =>
      if directKeeps seen m then
        ⟨m.Version, [], stripModSuffix m.Path⟩ :: directLoop rest (m.Path :: seen)
      else directLoop rest seen
    | none => directLoop rest seen

/-- Embeds packages.Direct (src/unnamed/part_000 lines 18-44), over the
package list supplied by the external packages.Load collaborator. -/
def Direct (pkgs : List LoadedPackage) : List Package := directLoop pkgs []

/-- The module records the Direct loop selects, in order: directLoop is its
image under the record constructor. -/
def directSel : List LoadedPackage → List GoStr → List GoModule
  | [], _ => []
  | p :: rest, seen =>
    match p.Module with
    | some m =>
      if directKeeps seen m then m :: directSel rest (m.Path :: seen)
      else directSel rest seen
    | none => directSel rest seen

/-- A module proxy query result: MaxVersion is the Registry Client oracle
(the modproxy package is an external collaborator of the core). -/
structure ProxyModule where
  MaxVersion : GoStr → Bool → GoStr

/-- A direct dependency as the list command consumes it. -/
structure Dependency where
  Path : GoStr
  Version : GoStr
deriving DecidableEq

/-- What one list-command worker prints for its dependency. -/
inductive ListLine where
  | failed (path err : GoStr)
  | update (path current latest : GoStr)
deriving DecidableEq

/-- Embeds the body of one errgroup worker of listcmd (src/main.go lines
91-106): a failed proxy lookup prints a per-item failure line and returns
nil; otherwise the newest version is shown when it beats the current one.
The pair is (printed line, error returned to the errgroup). -/
def listItem (lookup : GoStr → Except GoStr ProxyModule) (pre major : Bool)
    (dep : Dependency) : Option ListLine × Option GoStr :=
  match lookup dep.Path with
  | .error e => (some (.failed dep.Path e), none)
  | .ok m =>
    let v := m.MaxVersion [] pre
    if major && decide (semverCompare (semverMajor v) (semverMajor dep.Version) ≤ 0) then
      (none, none)
    else if semverCompare v dep.Version ≤ 0 then (none, none)
    else (some (.update dep.Path dep.Version v), none)

/-- The errgroup Wait result: the first error a worker returned. -/
def groupWait (results : List (Option GoStr)) : Option GoStr := results.findSome? id

/-- Embeds listcmd (src/main.go lines 62-108) after flag parsing: private
dependencies are skipped, one worker runs per remaining dependency, and the
command returns the printed lines with the errgroup wait result.  isPriv is
the oracle for module.MatchPrefixPatterns against GOPRIVATE. -/
def listcmd (lookup : GoStr → Except GoStr ProxyModule) (isPriv : GoStr → Bool)
    (pre major : Bool) (deps : List Dependency) :
    List (Option ListLine) × Option GoStr :=
  let outs := (deps.filter (fun dep => !isPriv dep.Path)).map (listItem lookup pre major)
  (outs.map Prod.fst, groupWait (outs.map Prod.snd))

/-- An error from the get command's version-resolution switch. -/
inductive GetError where
  | proxy (e : GoStr)
  | invalidVersion (q : GoStr)
deriving DecidableEq

/-- Embeds the version-resolution switch of the get command
(src/unnamed/part_001 lines 111-138; its default branch coincides with
src/main.go lines 148-157).  modMaxAt q is the Registry Client oracle for
mod.MaxVersion(q, pre); latestMax is the outcome of the live
modproxy.Latest query followed by MaxVersion("", pre).  Returns the
resolved version with the (possibly pinned) query token. -/
def getVersionSwitch (query : GoStr) (modMaxAt : GoStr → GoStr)
    (latestMax : Except GoStr GoStr) : Except GetError (GoStr × GoStr) :=
  if query = [] then .ok (modMaxAt [], query)
  else if query = "latest".toList then
    match latestMax with
    | .error e => .error (.proxy e)
    | .ok v => .ok (v, v)
  else if query = "master".toList ∨ query = "default".toList then
    match latestMax with
    | .error e => .error (.proxy e)
    | .ok v => .ok (v, query)
  else if !semverIsValid query then .error (.invalidVersion query)
  else if modMaxAt query ≠ [] then .ok (modMaxAt query, query)
  else .ok (query, query)

/-- Embeds the rewrite mapping closure built by the get command
(src/unnamed/part_001 lines 158-172).  The packages.SplitPath and
packages.JoinPath helpers it calls are not among the staged sources, so
they are taken as function parameters; the closure's skip decisions are
independent of them.  none models returning ErrSkip. -/
def getMappingFn (splitPath : GoStr → GoStr → Option (GoStr × GoStr))
    (joinPath : GoStr → GoStr → GoStr → GoStr)
    (modPre ver pkgdir : GoStr) (path : GoStr) : Option GoStr :=
  match splitPath modPre path with
  | none => none
  | some (_, pkgdir0) =>
    if pkgdir ≠ [] ∧ pkgdir ≠ pkgdir0 then none
    else
      let newpath := joinPath modPre ver pkgdir0
      if newpath = path then none else some newpath

/-- Concrete proxy lookup for the listcmd witness: one path fails, the rest
resolve to a fixed newer version. -/
def wLookup : GoStr → Except GoStr ProxyModule := fun p =>
  if p = "example.com/bad".toList then .error "boom".toList
  else .ok ⟨fun _ _ => "v2.0.0".toList⟩

/-- Concrete dependency list for the listcmd witness. -/
def wDeps : List Dependency :=
  [⟨"example.com/bad".toList, "v1.0.0".toList⟩,
   ⟨"example.com/good".toList, "v1.0.0".toList⟩]

theorem strTrimPre_not_pre (s pre : GoStr) (h : pre.isPrefixOf s = false) :
    strTrimPre s pre = s := by
  simp [strTrimPre, h]

theorem strTrimPre_cons (c : Char) (s : GoStr) :
    strTrimPre (c :: s) [c] = s := by
  simp [strTrimPre, List.isPrefixOf]

/-- Counterexample to claim C1 as stated: FindModPath matches the known
module prefix as a raw string prefix, so decomposing foo/bar against the
prefix foo/ba succeeds with ok=true (the claim demands ok=false there). -/
theorem findModPath_boundary_cex :
    Package.FindModPath ⟨[], [], "foo/ba".toList⟩ "foo/bar".toList
      = ("foo/ba".toList, true) := by
  decide

/-- Claim C1 amended: FindModPath returns ok=false exactly when the full path
does not start with ModPrefix as a raw string prefix; the match does not
respect path-segment boundaries, so foo/bar against prefix foo/ba succeeds. -/
theorem findModPath_ok_iff (pkg : Package) (pkgpath : GoStr) :
    (pkg.FindModPath pkgpath).2 = strHasPre pkgpath pkg.ModPrefix := by
  by_cases h : strHasPre pkgpath pkg.ModPrefix = true
  · simp only [Package.FindModPath]
    rw [h]
    simp only [Bool.not_true, Bool.false_eq_true, if_false]
    split <;> rfl
  · have h' : strHasPre pkgpath pkg.ModPrefix = false := by
      cases hb : strHasPre pkgpath pkg.ModPrefix
      · rfl
      · exact absurd hb h
    simp only [Package.FindModPath]
    rw [h']
    simp

/-- Claim C2: a version carrying the +incompatible marker on a module prefix
outside the gopkg.in convention keeps the unsuffixed module prefix. -/
theorem modPath_incompatible_unsuffixed (pkg : Package)
    (h1 : strContains pkg.Version "+incompatible".toList = true)
    (h2 : strHasPre pkg.ModPrefix "gopkg.in".toList = false) :
    pkg.ModPath = pkg.ModPrefix := by
  simp only [Package.ModPath, Package.Incompatible, h1, h2]
  simp

/-- Witness for modPath_incompatible_unsuffixed: a v2 incompatible version on
a github.com module keeps the unsuffixed path. -/
theorem modPath_incompatible_unsuffixed_witness :
    Package.ModPath ⟨"v2.0.0+incompatible".toList, [], "github.com/pkg/errors".toList⟩
      = "github.com/pkg/errors".toList :=
  modPath_incompatible_unsuffixed
    ⟨"v2.0.0+incompatible".toList, [], "github.com/pkg/errors".toList⟩
    (by decide) (by decide)

/-- The claim C4 as stated: scenario A for the standard convention and
scenario B for the legacy-host convention. -/
theorem joinPathMajor_scenarios :
    JoinPathMajor "github.com/pkg/errors".toList "v3".toList
        = "github.com/pkg/errors/v3".toList ∧
    JoinPathMajor "gopkg.in/yaml".toList "v2".toList
        = "gopkg.in/yaml.v2".toList := by
  constructor <;> decide

/-- Counterexample to claim C3 as stated: on a gopkg.in prefix, major token
v0 does not leave the prefix unchanged (the dot suffix is always appended). -/
theorem joinPathMajor_gopkg_low_cex :
    JoinPathMajor "gopkg.in/yaml".toList "v0".toList = "gopkg.in/yaml.v0".toList ∧
    JoinPathMajor "gopkg.in/yaml".toList "v0".toList ≠ "gopkg.in/yaml".toList := by
  constructor <;> decide

/-- Claim C3 amended: for every prefix outside the gopkg.in convention,
major tokens v0, v1 and the absent token all encode to the prefix itself. -/
theorem joinPathMajor_low_major_identity (p : GoStr)
    (h : strHasPre p "gopkg.in".toList = false) :
    JoinPathMajor p "v0".toList = p ∧
    JoinPathMajor p "v1".toList = p ∧
    JoinPathMajor p [] = p := by
  refine ⟨?_, ?_, ?_⟩ <;>
    · simp only [JoinPathMajor]
      rw [h]
      simp [strTrimPre, List.isPrefixOf]

/-- Witness for joinPathMajor_low_major_identity at a concrete prefix. -/
theorem joinPathMajor_low_major_identity_witness :
    JoinPathMajor "github.com/pkg/errors".toList "v0".toList
        = "github.com/pkg/errors".toList ∧
    JoinPathMajor "github.com/pkg/errors".toList "v1".toList
        = "github.com/pkg/errors".toList ∧
    JoinPathMajor "github.com/pkg/errors".toList [] = "github.com/pkg/errors".toList :=
  joinPathMajor_low_major_identity "github.com/pkg/errors".toList (by decide)

/-- Counterexample to claim C9 as stated: when the token itself begins with
the convention's delimiter, prepending the delimiter is not a no-op (only one
leading delimiter is trimmed). -/
theorem joinPathMajor_delim_cex :
    JoinPathMajor "gopkg.in/yaml".toList ('.' :: ".v2".toList)
        = "gopkg.in/yaml..v2".toList ∧
    JoinPathMajor "gopkg.in/yaml".toList ".v2".toList = "gopkg.in/yaml.v2".toList ∧
    JoinPathMajor "gopkg.in/yaml".toList ('.' :: ".v2".toList)
        ≠ JoinPathMajor "gopkg.in/yaml".toList ".v2".toList := by
  refine ⟨?_, ?_, ?_⟩ <;> decide

/-- Claim C9 amended: the major token may carry or omit its convention's
leading delimiter with the same result, provided the token itself does not
already begin with that delimiter. -/
theorem joinPathMajor_delimiter_optional (p t : GoStr) :
    (strHasPre p "gopkg.in".toList = true → strHasPre t ".".toList = false →
      JoinPathMajor p ('.' :: t) = JoinPathMajor p t) ∧
    (strHasPre p "gopkg.in".toList = false → strHasPre t "/".toList = false →
      JoinPathMajor p ('/' :: t) = JoinPathMajor p t) := by
  constructor
  · intro hp ht
    have h1 : strTrimPre ('.' :: t) ".".toList = t := strTrimPre_cons '.' t
    have h2 : strTrimPre t ".".toList = t := strTrimPre_not_pre t ".".toList ht
    simp only [JoinPathMajor]
    rw [hp, h1, h2]
    simp
  · intro hp ht
    have h1 : strTrimPre ('/' :: t) "/".toList = t := strTrimPre_cons '/' t
    have h2 : strTrimPre t "/".toList = t := strTrimPre_not_pre t "/".toList ht
    simp only [JoinPathMajor]
    rw [hp, h1, h2]
    simp

/-- Witness for joinPathMajor_delimiter_optional at concrete inputs under
both conventions. -/
theorem joinPathMajor_delimiter_optional_witness :
    JoinPathMajor "gopkg.in/yaml".toList ('.' :: "v2".toList)
        = JoinPathMajor "gopkg.in/yaml".toList "v2".toList ∧
    JoinPathMajor "github.com/pkg/errors".toList ('/' :: "v3".toList)
        = JoinPathMajor "github.com/pkg/errors".toList "v3".toList :=
  ⟨(joinPathMajor_delimiter_optional "gopkg.in/yaml".toList "v2".toList).1
      (by decide) (by decide),
   (joinPathMajor_delimiter_optional "github.com/pkg/errors".toList "v3".toList).2
      (by decide) (by decide)⟩

theorem directKeeps_not_seen (seen : List GoStr) (m : GoModule)
    (hk : directKeeps seen m = true) : m.Path ∉ seen := by
  simp only [directKeeps, Bool.and_eq_true, Bool.not_eq_true'] at hk
  have hc : seen.elem m.Path = false := hk.2
  intro hmem
  have ht : seen.elem m.Path = true := List.elem_iff.mpr hmem
  exact absurd (ht.symm.trans hc) (by decide)

theorem directSel_not_mem_seen (pkgs : List LoadedPackage) (seen : List GoStr) :
    ∀ q ∈ (directSel pkgs seen).map (fun m => m.Path), q ∉ seen := by
  induction pkgs generalizing seen with
  | nil => simp [directSel]
  | cons p rest ih =>
    intro q hq
    cases hm : p.Module with
    | none =>
      simp only [directSel, hm] at hq
      exact ih seen q hq
    | some m =>
      simp only [directSel, hm] at hq
      by_cases hk : directKeeps seen m = true
      · rw [if_pos hk] at hq
        simp only [List.map_cons, List.mem_cons] at hq
        rcases hq with rfl | hq
        · exact directKeeps_not_seen seen m hk
        · intro hqs
          exact ih (m.Path :: seen) q hq (List.mem_cons_of_mem _ hqs)
      · rw [if_neg hk] at hq
        exact ih seen q hq

theorem directSel_paths_nodup (pkgs : List LoadedPackage) (seen : List GoStr) :
    ((directSel pkgs seen).map (fun m => m.Path)).Nodup := by
  induction pkgs generalizing seen with
  | nil => simp [directSel]
  | cons p rest ih =>
    cases hm : p.Module with
    | none =>
      simp only [directSel, hm]
      exact ih seen
    | some m =>
      simp only [directSel, hm]
      by_cases hk : directKeeps seen m = true
      · rw [if_pos hk]
        simp only [List.map_cons, List.nodup_cons]
        refine ⟨?_, ih (m.Path :: seen)⟩
        intro hmem
        exact directSel_not_mem_seen rest (m.Path :: seen) m.Path hmem
          (List.mem_cons_self _ _)
      · rw [if_neg hk]
        exact ih seen

theorem directLoop_eq_map (pkgs : List LoadedPackage) (seen : List GoStr) :
    directLoop pkgs seen
      = (directSel pkgs seen).map (fun m => ⟨m.Version, [], stripModSuffix m.Path⟩) := by
  induction pkgs generalizing seen with
  | nil => simp [directLoop, directSel]
  | cons p rest ih =>
    cases hm : p.Module with
    | none =>
      simp only [directLoop, directSel, hm]
      exact ih seen
    | some m =>
      simp only [directLoop, directSel, hm]
      by_cases hk : directKeeps seen m = true
      · rw [if_pos hk, if_pos hk]
        simp only [List.map_cons]
        rw [ih (m.Path :: seen)]
      · rw [if_neg hk, if_neg hk]
        exact ih seen

/-- Claim C10: Direct yields at most one dependency record per module path:
its output is the image, under the record constructor, of a selection of
module records whose paths are pairwise distinct. -/
theorem direct_one_record_per_module (pkgs : List LoadedPackage) :
    Direct pkgs
        = (directSel pkgs []).map (fun m => ⟨m.Version, [], stripModSuffix m.Path⟩) ∧
    ((directSel pkgs []).map (fun m => m.Path)).Nodup :=
  ⟨directLoop_eq_map pkgs [], directSel_paths_nodup pkgs []⟩

theorem listItem_no_error (lookup : GoStr → Except GoStr ProxyModule)
    (pre major : Bool) (dep : Dependency) :
    (listItem lookup pre major dep).2 = none := by
  simp only [listItem]
  cases lookup dep.Path with
  | error e => rfl
  | ok m =>
    simp only []
    split
    · rfl
    · split <;> rfl

theorem groupWait_all_none (l : List (Option GoStr)) (h : ∀ x ∈ l, x = none) :
    groupWait l = none := by
  induction l with
  | nil => rfl
  | cons a t ih =>
    have ha := h a (List.mem_cons_self _ _)
    subst ha
    simp only [groupWait, List.findSome?_cons, id]
    exact ih (fun x hx => h x (List.mem_cons_of_mem _ hx))

/-- Claim C8: a proxy lookup failure in the list command is reported as a
per-item failure line, every other (non-private) dependency still gets its
own processed entry, and the command's errgroup result carries no error. -/
theorem listcmd_isolates_failures (lookup : GoStr → Except GoStr ProxyModule)
    (isPriv : GoStr → Bool) (pre major : Bool) (deps : List Dependency)
    (dep : Dependency) (e : GoStr) (hmem : dep ∈ deps)
    (herr : lookup dep.Path = .error e) :
    (listcmd lookup isPriv pre major deps).2 = none ∧
    (listcmd lookup isPriv pre major deps).1
      = (deps.filter (fun d => !isPriv d.Path)).map
          (fun d => (listItem lookup pre major d).1) ∧
    (listItem lookup pre major dep).1 = some (.failed dep.Path e) := by
  refine ⟨?_, ?_, ?_⟩
  · simp only [listcmd]
    apply groupWait_all_none
    intro x hx
    simp only [List.map_map, List.mem_map] at hx
    obtain ⟨d, _, rfl⟩ := hx
    exact listItem_no_error lookup pre major d
  · simp only [listcmd, List.map_map]
    rfl
  · simp only [listItem, herr]

/-- Witness for listcmd_isolates_failures: two dependencies, the first of
which fails its lookup; both are reported and no error is returned. -/
theorem listcmd_isolates_failures_witness :
    (listcmd wLookup (fun _ => false) false false wDeps).2 = none ∧
    (listcmd wLookup (fun _ => false) false false wDeps).1
      = (wDeps.filter (fun d => !(fun _ => false) d.Path)).map
          (fun d => (listItem wLookup false false d).1) ∧
    (listItem wLookup false false ⟨"example.com/bad".toList, "v1.0.0".toList⟩).1
      = some (.failed "example.com/bad".toList "boom".toList) :=
  listcmd_isolates_failures wLookup (fun _ => false) false false wDeps
    ⟨"example.com/bad".toList, "v1.0.0".toList⟩ "boom".toList
    (List.mem_cons_self _ _) rfl

/-- Claim C5: in the get command's explicit-version branch, a syntactically
invalid query is a fatal invalid-version error, while a valid query whose
registry corroboration lookup comes back empty resolves to the literal
query string without error. -/
theorem get_explicit_version_policy (query : GoStr) (modMaxAt : GoStr → GoStr)
    (latestMax : Except GoStr GoStr) (h0 : query ≠ []) (h1 : query ≠ "latest".toList)
    (h2 : query ≠ "master".toList) (h3 : query ≠ "default".toList) :
    (semverIsValid query = false →
      getVersionSwitch query modMaxAt latestMax = .error (.invalidVersion query)) ∧
    (semverIsValid query = true → modMaxAt query = [] →
      getVersionSwitch query modMaxAt latestMax = .ok (query, query)) := by
  constructor
  · intro hv
    simp only [getVersionSwitch, h0, h1, h2, h3, hv]
    simp
  · intro hv hm
    simp only [getVersionSwitch, h0, h1, h2, h3, hv, hm]
    simp

/-- Witness for get_explicit_version_policy: an invalid literal query fails,
and a valid one the registry does not corroborate is used verbatim. -/
theorem get_explicit_version_policy_witness :
    getVersionSwitch "banana".toList (fun _ => []) (.ok "v1.0.0".toList)
      = .error (.invalidVersion "banana".toList) ∧
    getVersionSwitch "v9.9.9".toList (fun _ => []) (.ok "v1.0.0".toList)
      = .ok ("v9.9.9".toList, "v9.9.9".toList) :=
  ⟨(get_explicit_version_policy "banana".toList (fun _ => []) (.ok "v1.0.0".toList)
      (by decide) (by decide) (by decide) (by decide)).1 (by decide),
   (get_explicit_version_policy "v9.9.9".toList (fun _ => []) (.ok "v1.0.0".toList)
      (by decide) (by decide) (by decide) (by decide)).2 (by decide) rfl⟩

/-- Claim C6: the master and default query strings resolve exactly like a
latest request: a successful live registry query becomes the target
version, and no invalid-version error can arise. -/
theorem get_master_default_like_latest (query : GoStr) (modMaxAt : GoStr → GoStr)
    (v : GoStr) (h : query = "master".toList ∨ query = "default".toList) :
    getVersionSwitch query modMaxAt (.ok v) = .ok (v, query) ∧
    (getVersionSwitch query modMaxAt (.ok v)).map Prod.fst
      = (getVersionSwitch "latest".toList modMaxAt (.ok v)).map Prod.fst := by
  rcases h with h | h <;> subst h <;> exact ⟨rfl, rfl⟩

/-- Witness for get_master_default_like_latest at query master. -/
theorem get_master_default_like_latest_witness :
    getVersionSwitch "master".toList (fun _ => []) (.ok "v3.2.1".toList)
      = .ok ("v3.2.1".toList, "master".toList) ∧
    (getVersionSwitch "master".toList (fun _ => []) (.ok "v3.2.1".toList)).map Prod.fst
      = (getVersionSwitch "latest".toList (fun _ => []) (.ok "v3.2.1".toList)).map
          Prod.fst :=
  get_master_default_like_latest "master".toList (fun _ => []) "v3.2.1".toList
    (Or.inl rfl)

/-- Claim C7: the rewrite mapping function is idempotent: when the
recomputed path equals the observed reference path, the reference is
skipped rather than emitted as a change. -/
theorem mapping_idempotent (splitPath : GoStr → GoStr → Option (GoStr × GoStr))
    (joinPath : GoStr → GoStr → GoStr → GoStr) (modPre ver pkgdir path mr sub : GoStr)
    (hsplit : splitPath modPre path = some (mr, sub))
    (heq : joinPath modPre ver sub = path) :
    getMappingFn splitPath joinPath modPre ver pkgdir path = none := by
  simp [getMappingFn, hsplit, heq]

/-- Witness for mapping_idempotent: a reference already at the target
version is skipped. -/
theorem mapping_idempotent_witness :
    getMappingFn (fun _ _ => some ("example.com/m/v2".toList, "sub".toList))
      (fun _ _ _ => "example.com/m/v2/sub".toList) "example.com/m".toList
      "v2.0.0".toList [] "example.com/m/v2/sub".toList = none :=
  mapping_idempotent (fun _ _ => some ("example.com/m/v2".toList, "sub".toList))
    (fun _ _ _ => "example.com/m/v2/sub".toList) "example.com/m".toList
    "v2.0.0".toList [] "example.com/m/v2/sub".toList "example.com/m/v2".toList
    "sub".toList rfl rfl
